import Mathlib

/-!
Verification of the TARS voice-interaction front end (utterance segmentation
and turn-taking engine) against its natural-language specification.

The development shallowly embeds the relevant source functions:

* `module_turn_detector.py` — `EOUDetector.analyze_utterance` and
  `EOUDetector.__call__` (the lexical adjustment fuser).  Text is modelled as
  `List Char`; the regex searches of the source are modelled exactly
  (case-insensitive word-boundary search for the hesitation and uncertainty
  alternatives, end-anchored checks for the ellipsis and sentence-final
  punctuation patterns).  The raw model score is an arbitrary rational
  parameter, matching the estimator's probability contract.
* `audio_utils.py` — `prepare_audio_data` (RMS with NaN/Inf sanitising,
  clipping, and the empty / all-zero early outs).
* `module_stt.py` — `STTManager._measure_background_noise` (noise
  calibration with the IQR outlier filter), the live (second) definition of
  `STTManager._is_silence_detected_rms`, the bounded recording loop shared by
  `_transcribe_with_faster_whisper` / `_transcribe_with_vosk` /
  `_transcribe_silero` / `_transcribe_with_server`, and the outer
  `_stt_processing_loop`.

Real numbers of the source (Python floats) are modelled as rationals.
-/

namespace TARS

/-! ## Definitions: text model and regex searches (module_turn_detector.py) -/

/-- A regex word character, `[A-Za-z0-9_]`, as used by the `\b` boundary of
the hesitation and uncertainty patterns. -/
def isWordChar (c : Char) : Bool :=
  ('a' ≤ c && c ≤ 'z') || ('A' ≤ c && c ≤ 'Z') || ('0' ≤ c && c ≤ '9') || c == '_'

/-- Whether position `i` of `t` holds a word character (out-of-range counts
as a non-word position, as at the edges of a regex subject). -/
def isWordAt (t : List Char) (i : Nat) : Bool :=
  match t.get? i with
  | some c => isWordChar c
  | none => false

/-- The regex `\b` word boundary at position `i` of `t`: it matches when
exactly one of the two neighbouring positions holds a word character. -/
def boundaryAt (t : List Char) (i : Nat) : Bool :=
  (if i = 0 then false else isWordAt t (i - 1)) != isWordAt t i

/-- `re.search` of a single literal alternative `w` wrapped in `\b…\b`:
some position of `t` starts an occurrence of `w` with word boundaries on
both sides. -/
def searchWord (t w : List Char) : Bool :=
  (List.range (t.length + 1)).any fun i =>
    ((t.drop i).take w.length == w) && boundaryAt t i && boundaryAt t (i + w.length)

/-- `re.search` of `\b(w₁|w₂|…)\b` over `t`. -/
def searchAlts (t : List Char) (ws : List (List Char)) : Bool :=
  ws.any (searchWord t)

/-- Case folding; the source compiles its patterns with `re.IGNORECASE` and
all alternatives are ASCII, so searching the lower-cased text for the
lower-cased alternatives is equivalent. -/
def lowerStr (t : List Char) : List Char := t.map Char.toLower

/-- Python `str.split()`: split on runs of whitespace, dropping empty
chunks. -/
def splitWsAux : List Char → List Char → List (List Char)
  | [], acc => if acc.isEmpty then [] else [acc.reverse]
  | c :: cs, acc =>
    if c.isWhitespace then
      if acc.isEmpty then splitWsAux cs [] else acc.reverse :: splitWsAux cs []
    else splitWsAux cs (c :: acc)

/-- Python `str.split()` on a `List Char` text. -/
def pySplit (t : List Char) : List (List Char) := splitWsAux t []

/-- Python `str.strip()`: drop whitespace from both ends. -/
def pyStrip (t : List Char) : List Char :=
  ((t.dropWhile Char.isWhitespace).reverse.dropWhile Char.isWhitespace).reverse

/-- The ellipsis pattern `\.{3,}$|…$`: the text ends with at least three
dots, or with the single `…` character. -/
def endsWithEllipsis (t : List Char) : Bool :=
  (t.reverse.take 3 == ['.', '.', '.']) || (t.reverse.take 1 == ['…'])

/-- The completion pattern `[.!?]$`: the last character is sentence-final
punctuation. -/
def endsWithPunct (t : List Char) : Bool :=
  match t.reverse with
  | c :: _ => c == '.' || c == '!' || c == '?'
  | [] => false

/-- Alternatives of `hesitation_pattern`: `\b(um|uh|er|hmm|well\.\.\.)\b`. -/
def hesitationWords : List (List Char) :=
  ["um".data, "uh".data, "er".data, "hmm".data, "well...".data]

/-- Alternatives of `uncertainty_pattern`:
`\b(maybe|perhaps|probably|might|could be|not sure|i think|possibly)\b`. -/
def uncertaintyWords : List (List Char) :=
  ["maybe".data, "perhaps".data, "probably".data, "might".data,
   "could be".data, "not sure".data, "i think".data, "possibly".data]

/-- Result of `EOUDetector.analyze_utterance`. -/
structure UtteranceFeatures where
  short_utterance : Bool
  hesitation : Bool
  complete : Bool
  uncertainty : Bool
  trailing_ellipsis : Bool
deriving DecidableEq, Repr

/-- `EOUDetector.analyze_utterance`: word count is taken on the raw text,
the pattern searches on the stripped text; `complete` holds only when the
text ends in sentence-final punctuation and has no trailing ellipsis. -/
def analyze_utterance (text : List Char) : UtteranceFeatures :=
  let words := pySplit text
  let t := pyStrip text
  let hasEllipsis := endsWithEllipsis t
  { short_utterance := decide (words.length ≤ 2)
    hesitation := searchAlts (lowerStr t) hesitationWords
    complete := endsWithPunct t && !hasEllipsis
    uncertainty := searchAlts (lowerStr t) uncertaintyWords
    trailing_ellipsis := hasEllipsis }

/-- One conversation turn (`{"role": …, "content": …}`). -/
structure Turn where
  role : List Char
  content : List Char
deriving DecidableEq

/-- The multiplicative adjustment cascade of `EOUDetector.__call__` applied
to the raw model probability for the current (last) utterance, including the
final clamp to `[0, 1]`. -/
def fuseAdjust (text : List Char) (raw : ℚ) : ℚ :=
  let f := analyze_utterance text
  let p1 := if f.trailing_ellipsis then raw * (3/10) else raw
  let p2 := if f.short_utterance then p1 * (85/100) else p1
  let p3 := if f.hesitation then p2 * (9/10) else p2
  let p4 := if f.complete then p3 * (115/100) else p3
  let p5 := if f.uncertainty then p4 * (95/100) else p4
  let p6 := if f.trailing_ellipsis && (f.short_utterance || f.hesitation)
            then p5 * (8/10) else p5
  max 0 (min 1 p6)

/-- `EOUDetector.__call__` as a function of the conversation window and the
raw estimator score: on a non-empty conversation the lexical adjustments for
the last turn's content are applied, otherwise the raw score is returned
unchanged. -/
def eou_call (conversation : List Turn) (raw : ℚ) : ℚ :=
  match conversation.getLast? with
  | none => raw
  | some turn => fuseAdjust turn.content raw

/-- A concrete three-turn conversation window ending in `"Yes."`. -/
def yesConv : List Turn :=
  [⟨"user".data, "Hi there".data⟩, ⟨"assistant".data, "Hello!".data⟩,
   ⟨"user".data, "Yes.".data⟩]

/-- A concrete three-turn conversation window ending in `"I think maybe..."`. -/
def ithinkConv : List Turn :=
  [⟨"user".data, "Hi there".data⟩, ⟨"assistant".data, "Hello!".data⟩,
   ⟨"user".data, "I think maybe...".data⟩]

/-! ## Definitions: RMS preparation (audio_utils.py, prepare_audio_data) -/

/-- A float sample as read from a frame: a finite value, or one of the
non-finite values that `np.nan_to_num` sanitises. -/
inductive PySample where
  | val (q : ℚ)
  | nan
  | posinf
  | neginf
deriving DecidableEq

/-- `np.nan_to_num(data, nan=0.0, posinf=0.0, neginf=0.0)` on one sample. -/
def sanitize : PySample → ℚ
  | .val q => q
  | .nan => 0
  | .posinf => 0
  | .neginf => 0

/-- `np.clip(data, -32000, 32000)` on one sample. -/
def clip (q : ℚ) : ℚ := max (-32000) (min 32000 q)

/-- The sanitised and clipped frame, `np.clip(np.nan_to_num(data), …)`. -/
def cleaned (data : List PySample) : List ℚ :=
  data.map fun s => clip (sanitize s)

/-- `prepare_audio_data` up to the final square root: `none` for an empty
frame, and `none` for a frame that is all zeros after sanitising and
clipping; otherwise the mean of the squared cleaned samples.  (The source
returns the square root of this value; the root preserves definedness and
order and no claim depends on its exact value.) -/
def prepare_audio_data_sq (data : List PySample) : Option ℚ :=
  if data.isEmpty then none
  else if (cleaned data).all fun q => q == 0 then none
  else some (((cleaned data).map fun q => q * q).sum / (cleaned data).length)

/-! ## Definitions: noise calibration (module_stt.py,
`_measure_background_noise`) -/

/-- Insertion of a value into an ascending list of rationals. -/
def insertSorted (x : ℚ) : List ℚ → List ℚ
  | [] => [x]
  | y :: ys => if x ≤ y then x :: y :: ys else y :: insertSorted x ys

/-- Insertion sort, ascending. -/
def sortQ : List ℚ → List ℚ
  | [] => []
  | x :: xs => insertSorted x (sortQ xs)

/-- `np.percentile(a, q)` with the default linear interpolation: position
`q/100 × (n−1)` in the ascending sort, interpolating between the two
neighbouring order statistics. -/
def percentile (samples : List ℚ) (q : ℚ) : ℚ :=
  let sorted := sortQ samples
  let n := sorted.length
  let pos := q * ((n : ℚ) - 1) / 100
  let i := (⌊pos⌋).toNat
  let frac := pos - (i : ℚ)
  let lo := sorted.getD i 0
  let hi := sorted.getD (i + 1) lo
  lo + frac * (hi - lo)

/-- `np.median` coincides with the 50th percentile under linear
interpolation. -/
def medianQ (samples : List ℚ) : ℚ := percentile samples 50

/-- Maximum of a list of rationals (`np.max`), `none` on the empty list. -/
def maxQ : List ℚ → Option ℚ
  | [] => none
  | x :: xs =>
    some (match maxQ xs with
          | none => x
          | some m => max x m)

/-- The boolean-mask filter
`background_rms[(background_rms >= lower) & (background_rms <= upper)]`. -/
def filterRange (lo hi : ℚ) : List ℚ → List ℚ
  | [] => []
  | x :: xs => if lo ≤ x ∧ x ≤ hi then x :: filterRange lo hi xs else filterRange lo hi xs

/-- `STTManager._measure_background_noise` on the list of valid ambient RMS
samples it collected: `none` when no valid sample exists (the source logs a
warning and keeps the default threshold); otherwise the pair of the
wake-level threshold (`np.max` of the IQR-filtered samples) and the
operative silence threshold (wake level × the margin multiplier 3.5).  The
source's intermediate assignment `silence_threshold = max(median_rms, 10)`
(see `medianFloor`) is immediately overwritten by the margin product, which
carries no floor. -/
def calibrate (samples : List ℚ) : Option (ℚ × ℚ) :=
  if samples.isEmpty then none
  else
    let q1 := percentile samples 25
    let q3 := percentile samples 75
    let iqr := q3 - q1
    let lowerB := q1 - (3/2) * iqr
    let upperB := q3 + (3/2) * iqr
    let filtered := filterRange lowerB upperB samples
    match maxQ filtered with
    | none => none
    | some wake => some (wake, wake * (7/2))

/-- The intermediate value `max(median_rms, 10)` that
`_measure_background_noise` assigns to `silence_threshold` before
overwriting it with the margin product. -/
def medianFloor (samples : List ℚ) : ℚ := max (medianQ samples) 10

/-! ## Definitions: the recording loop (module_stt.py) -/

/-- The live (second) definition of `STTManager._is_silence_detected_rms`
applied to one frame, as a function of the calibrated silence threshold, the
frame's prepared RMS (`none` when `prepare_audio_data` yielded no value) and
the running `(detected_speech, silent_frames)` state; returns
`(is_silence, detected_speech, silent_frames)`.  The margin multiplier is
the fixed `silence_margin = 3.5` of `STTManager.__init__`.  The source also
reads `_current_eou_prob` into a local variable it never uses; the unused
`eouProb` parameter mirrors that read. -/
def rmsSilenceStep (threshold eouProb : ℚ) (maxSilent : ℕ) (rmsOpt : Option ℚ)
    (detected : Bool) (silent : ℕ) : Bool × Bool × ℕ :=
  let marginThreshold := threshold * (7/2)
  match rmsOpt with
  | none => (false, detected, silent)
  | some rms =>
    if marginThreshold < rms then (false, true, 0)
    else
      if maxSilent < silent + 1 then (true, detected, silent + 1)
      else (false, detected, silent + 1)

/-- Outcome of one capture: the utterance was discarded because no speech
was ever detected before the silence cap (`return None` before any
transcription), finalised for transcription after speech plus the silence
cap (`break`), or the hard frame cap was exhausted and the buffer goes to
transcription as-is. -/
inductive RecOutcome where
  | discarded
  | finalize (buf : List (Option ℚ))
  | capFull (buf : List (Option ℚ))
deriving DecidableEq

/-- The bounded recording loop of `_transcribe_with_faster_whisper` (the
same frame-guard structure appears in `_transcribe_with_vosk`,
`_transcribe_silero` and `_transcribe_with_server`): for at most
`fuel = MAX_RECORDING_FRAMES` iterations, read a frame, classify it with
`rmsSilenceStep`, and on silence either discard (no speech yet) or break to
finalisation; otherwise append the frame to the buffer.  Frames are
represented by their prepared RMS.  Returns the outcome and the number of
frames read. -/
def recordLoop (threshold eouProb : ℚ) (maxSilent : ℕ) :
    ℕ → List (Option ℚ) → Bool → ℕ → List (Option ℚ) → RecOutcome × ℕ
  | 0, _, _, _, buf => (.capFull buf.reverse, 0)
  | _ + 1, [], _, _, buf => (.capFull buf.reverse, 0)
  | fuel + 1, f :: rest, detected, silent, buf =>
    match rmsSilenceStep threshold eouProb maxSilent f detected silent with
    | (true, det, _) => (if det then .finalize buf.reverse else .discarded, 1)
    | (false, det, sil) =>
      let r := recordLoop threshold eouProb maxSilent fuel rest det sil (f :: buf)
      (r.1, r.2 + 1)

/-- Capture outcome for the spec-described loop of `recordLoopSpecPolling`,
with the additional `aborted` outcome for a shutdown observed mid-capture. -/
inductive RecOutcomeS where
  | discarded
  | finalize (buf : List (Option ℚ))
  | capFull (buf : List (Option ℚ))
  | aborted
deriving DecidableEq

/-- Spec-described variant of the recording loop, for comparison with
`recordLoop`: per the spec the worker polls the shutdown flag "at each loop
iteration and at each frame read", and a shutdown signalled mid-`Recording`
"must end the loop without invoking `onUtterance`" — modelled by checking
`shutdown t` before the frame read at time `t` and aborting without
finalisation. -/
def recordLoopSpecPolling (shutdown : ℕ → Bool) (threshold eouProb : ℚ) (maxSilent : ℕ) :
    ℕ → ℕ → List (Option ℚ) → Bool → ℕ → List (Option ℚ) → RecOutcomeS × ℕ
  | _, 0, _, _, _, buf => (.capFull buf.reverse, 0)
  | _, _ + 1, [], _, _, buf => (.capFull buf.reverse, 0)
  | t, fuel + 1, f :: rest, detected, silent, buf =>
    if shutdown t then (.aborted, 0)
    else
      match rmsSilenceStep threshold eouProb maxSilent f detected silent with
      | (true, det, _) => (if det then .finalize buf.reverse else .discarded, 1)
      | (false, det, sil) =>
        let r := recordLoopSpecPolling shutdown threshold eouProb maxSilent
          (t + 1) fuel rest det sil (f :: buf)
        (r.1, r.2 + 1)

/-- `STTManager._stt_processing_loop`: `while running and not
shutdown_event.is_set(): if wake-word detected: transcribe one utterance`.
Iteration `i` checks the shutdown flag once, then runs a wake-word poll and,
on a match, one transcription cycle; the returned list holds the indices of
iterations that transcribed.  `fuel` bounds the modelled run length. -/
def sttLoop (shutdown wake : ℕ → Bool) : ℕ → ℕ → List ℕ
  | 0, _ => []
  | fuel + 1, i =>
    if shutdown i then []
    else (if wake i then [i] else []) ++ sttLoop shutdown wake fuel (i + 1)

/-! ## Helper lemmas -/

theorem eou_call_eq_fuseAdjust (conversation : List Turn) (turn : Turn) (raw : ℚ)
    (h : conversation.getLast? = some turn) :
    eou_call conversation raw = fuseAdjust turn.content raw := by
  unfold eou_call
  rw [h]

/-- Features of the utterance `"Yes."`: one word (short), no hesitation,
complete punctuation, no uncertainty, no trailing ellipsis. -/
theorem analyze_yes :
    analyze_utterance ("Yes.".data) = ⟨true, false, true, false, false⟩ := by
  decide

/-- Features of `"I think maybe..."`: three words (not short), no
hesitation, trailing ellipsis (hence not complete), uncertainty markers. -/
theorem analyze_ithink :
    analyze_utterance ("I think maybe...".data) = ⟨false, false, false, true, true⟩ := by
  decide

/-- For `"Yes."` the fuser applies exactly the short-utterance factor
(×0.85) and the completion factor (×1.15). -/
theorem fuseAdjust_yes (raw : ℚ) (h0 : 0 ≤ raw) (h1 : raw ≤ 1) :
    fuseAdjust ("Yes.".data) raw = raw * (85/100) * (115/100) := by
  have hfeat := analyze_yes
  simp only [fuseAdjust, hfeat]
  norm_num
  rw [min_eq_right (by nlinarith), max_eq_right (by nlinarith)]

/-- For `"I think maybe..."` the fuser applies exactly the ellipsis factor
(×0.3) and the uncertainty factor (×0.95); the compound factor does not
fire because the utterance is neither short nor hesitant. -/
theorem fuseAdjust_ithink (raw : ℚ) (h0 : 0 ≤ raw) (h1 : raw ≤ 1) :
    fuseAdjust ("I think maybe...".data) raw = raw * (3/10) * (95/100) := by
  have hfeat := analyze_ithink
  simp only [fuseAdjust, hfeat]
  norm_num
  rw [min_eq_right (by nlinarith), max_eq_right (by nlinarith)]

/-! ## C1 -/

/-- C1, counterexample: for the three-turn window ending in `"Yes."` and the
raw score 1/2 ∈ (0,1], the fused probability is NOT strictly higher than the
raw score — `"Yes."` is a single word, so the short-utterance factor ×0.85
also fires and the product 0.85 × 1.15 = 0.9775 lowers the score. -/
theorem c1_yes_counterexample : ¬ ((1:ℚ)/2 < eou_call yesConv (1/2)) := by
  have h : eou_call yesConv (1/2) = (1/2) * (85/100) * (115/100) := by
    rw [eou_call_eq_fuseAdjust yesConv ⟨"user".data, "Yes.".data⟩ (1/2) rfl]
    exact fuseAdjust_yes _ (by norm_num) (by norm_num)
  rw [h]
  norm_num

/-- C1, amended: for every conversation window of at least 3 turns whose
last turn's text is `"Yes."` and every raw score in (0,1], the fused EOU
probability equals raw × 0.85 × 1.15 (the short-utterance factor applies in
addition to the completion factor, since `"Yes."` is one word) and is
strictly LOWER than the raw score. -/
theorem c1_yes_fused_strictly_lower (conv : List Turn) (turn : Turn) (raw : ℚ)
    (hlen : 3 ≤ conv.length) (hlast : conv.getLast? = some turn)
    (htext : turn.content = "Yes.".data) (h0 : 0 < raw) (h1 : raw ≤ 1) :
    eou_call conv raw = raw * (85/100) * (115/100) ∧ eou_call conv raw < raw := by
  rw [eou_call_eq_fuseAdjust conv turn raw hlast, htext,
    fuseAdjust_yes raw (le_of_lt h0) h1]
  exact ⟨rfl, by nlinarith⟩

/-- Witness for C1's amended theorem at the concrete window and raw score 1. -/
theorem c1_yes_fused_strictly_lower_witness :
    eou_call yesConv 1 = 1 * (85/100) * (115/100) ∧ eou_call yesConv 1 < 1 :=
  c1_yes_fused_strictly_lower yesConv ⟨"user".data, "Yes.".data⟩ 1
    (by decide) rfl rfl (by norm_num) (by norm_num)

/-! ## C4 -/

/-- C4, counterexample: for the three-turn window ending in
`"I think maybe..."` and raw score 1, the fused probability is
1 × 0.3 × 0.95 = 0.285, not 1 × 0.3 × 0.95 × 0.8 = 0.228 as the claim
asserts — the compound ×0.8 factor requires the utterance to be short or
hesitant, and `"I think maybe..."` (three words, no hesitation marker) is
neither. -/
theorem c4_ithink_counterexample :
    eou_call ithinkConv 1 = 1 * (3/10) * (95/100) ∧
    eou_call ithinkConv 1 ≠ 1 * (3/10) * (95/100) * (8/10) := by
  have h : eou_call ithinkConv 1 = 1 * (3/10) * (95/100) := by
    rw [eou_call_eq_fuseAdjust ithinkConv ⟨"user".data, "I think maybe...".data⟩ 1 rfl]
    exact fuseAdjust_ithink 1 (by norm_num) (by norm_num)
  exact ⟨h, by rw [h]; norm_num⟩

/-- C4, amended: for every conversation window of exactly 3 turns whose last
turn's text is `"I think maybe..."` and every raw score in (0,1], the fused
EOU probability equals raw × 0.3 × 0.95 — the trailing-ellipsis and
uncertainty factors apply, the compound ×0.8 factor does not (the utterance
is neither short nor hesitant) — and is strictly lower than the raw score. -/
theorem c4_ithink_fused_strictly_lower (conv : List Turn) (turn : Turn) (raw : ℚ)
    (hlen : conv.length = 3) (hlast : conv.getLast? = some turn)
    (htext : turn.content = "I think maybe...".data) (h0 : 0 < raw) (h1 : raw ≤ 1) :
    eou_call conv raw = raw * (3/10) * (95/100) ∧ eou_call conv raw < raw := by
  rw [eou_call_eq_fuseAdjust conv turn raw hlast, htext,
    fuseAdjust_ithink raw (le_of_lt h0) h1]
  exact ⟨rfl, by nlinarith⟩

/-- Witness for C4's amended theorem at the concrete window and raw score 1. -/
theorem c4_ithink_fused_strictly_lower_witness :
    eou_call ithinkConv 1 = 1 * (3/10) * (95/100) ∧ eou_call ithinkConv 1 < 1 :=
  c4_ithink_fused_strictly_lower ithinkConv ⟨"user".data, "I think maybe...".data⟩ 1
    (by decide) rfl rfl (by norm_num) (by norm_num)

/-! ## C10 -/

/-- C10: the utterance analysis never reports both `complete` and
`trailing_ellipsis`: a trailing ellipsis always suppresses the completion
flag, so the ×0.3 and ×1.15 adjustments can never both apply to one text. -/
theorem c10_complete_never_with_ellipsis (text : List Char) :
    ((analyze_utterance text).complete && (analyze_utterance text).trailing_ellipsis)
      = false := by
  simp only [analyze_utterance]
  cases h : endsWithEllipsis (pyStrip text) <;> simp [h]

/-! ## C9 -/

/-- A list of non-negative rationals containing a positive member has
positive sum. -/
theorem sumPosOfMem (l : List ℚ) (hnn : ∀ x ∈ l, 0 ≤ x) (q : ℚ)
    (hq : q ∈ l) (hqpos : 0 < q) : 0 < l.sum := by
  induction l with
  | nil => simp at hq
  | cons a as ih =>
    rw [List.sum_cons]
    rcases List.mem_cons.mp hq with rfl | hmem
    · exact add_pos_of_pos_of_nonneg hqpos
        (List.sum_nonneg fun x hx => hnn x (List.mem_cons_of_mem _ hx))
    · exact add_pos_of_nonneg_of_pos (hnn a (List.mem_cons_self a as))
        (ih (fun x hx => hnn x (List.mem_cons_of_mem _ hx)) hmem)

/-- C9: `prepare_audio_data` yields no value exactly for an empty frame or a
frame that is all zeros after cleaning; non-finite samples are sanitised to
0; cleaned samples lie in [-32000, 32000]; and any value produced is
strictly positive (an all-zero frame is skipped, never reported as a zero
RMS). -/
theorem c9_prepare_audio_guards (data : List PySample) :
    (prepare_audio_data_sq data = none ↔
       data = [] ∨ ∀ s ∈ data, clip (sanitize s) = 0) ∧
    (sanitize PySample.nan = 0 ∧ sanitize PySample.posinf = 0 ∧
       sanitize PySample.neginf = 0) ∧
    (∀ q : ℚ, -32000 ≤ clip q ∧ clip q ≤ 32000) ∧
    (∀ v : ℚ, prepare_audio_data_sq data = some v → 0 < v) := by
  refine ⟨?_, ⟨rfl, rfl, rfl⟩,
    fun q => ⟨le_max_left _ _, max_le (by norm_num) (min_le_left _ _)⟩, ?_⟩
  · unfold prepare_audio_data_sq
    rcases data with _ | ⟨s, rest⟩
    · simp
    · rw [if_neg (by simp)]
      split
      next hall =>
        simp only [cleaned, List.all_eq_true, List.mem_map, beq_iff_eq] at hall
        simp only [true_iff]
        exact Or.inr fun x hx => hall _ ⟨x, hx, rfl⟩
      next hall =>
        simp only [cleaned, List.all_eq_true, List.mem_map, beq_iff_eq, not_forall] at hall
        constructor
        · intro h; simp at h
        · rintro (h | h)
          · simp at h
          · obtain ⟨q, ⟨x, hx, rfl⟩, hq⟩ := hall
            exact absurd (h x hx) hq
  · intro v hv
    unfold prepare_audio_data_sq at hv
    rcases data with _ | ⟨s, rest⟩
    · simp at hv
    · rw [if_neg (by simp)] at hv
      split at hv
      next => simp at hv
      next hall =>
        rw [Option.some_inj] at hv
        subst hv
        apply div_pos
        · simp only [cleaned, List.all_eq_true, List.mem_map, beq_iff_eq, not_forall] at hall
          obtain ⟨q, ⟨x, hx, rfl⟩, hq⟩ := hall
          exact sumPosOfMem _
            (fun y hy => by
              obtain ⟨z, hz, rfl⟩ := List.mem_map.mp hy
              exact mul_self_nonneg z)
            (clip (sanitize x) * clip (sanitize x))
            (List.mem_map.mpr ⟨clip (sanitize x),
              by simp only [cleaned]; exact List.mem_map.mpr ⟨x, hx, rfl⟩, rfl⟩)
            (mul_self_pos.mpr hq)
        · have h1 : 0 < (cleaned (s :: rest)).length := by simp [cleaned]
          exact_mod_cast h1

/-! ## C5 -/

/-- C5: for the ambient RMS samples [10,10,10,10,100] the IQR filter
(Q1 = Q3 = 10, IQR = 0, bounds [10,10]) excludes the 100 outlier; the
wake-level threshold is the maximum 10 of the filtered samples and the
operative silence threshold is 10 × the margin multiplier 3.5. -/
theorem c5_iqr_filters_outlier :
    calibrate [10, 10, 10, 10, 100] = some (10, 10 * (7/2)) := by
  norm_num [calibrate, percentile, sortQ, insertSorted, maxQ, filterRange]
  simp
  norm_num [maxQ]

/-! ## C2 -/

/-- C2, counterexample: for the all-quiet ambient samples [1,1,1,1,1] the
calibration returns the wake-level threshold 1 and the operative silence
threshold 1 × 3.5 = 3.5, which is below the configured floor of 10 — the
source's `max(median_rms, 10)` assignment is immediately overwritten by the
margin product, which carries no floor. -/
theorem c2_floor_counterexample :
    calibrate [1, 1, 1, 1, 1] = some (1, 7/2) ∧ ¬ ((10:ℚ) ≤ 7/2) := by
  refine ⟨?_, by norm_num⟩
  norm_num [calibrate, percentile, sortQ, insertSorted, maxQ, filterRange]
  simp
  norm_num [maxQ]

/-- C2, amended: whenever calibration succeeds, the operative
SilenceThreshold equals the wake-level threshold × 3.5 and carries no floor;
the configured floor of 10 is applied only to the intermediate median-based
assignment (`medianFloor`), which the final assignment overwrites. -/
theorem c2_threshold_is_margin_product (samples : List ℚ) (wake st : ℚ)
    (h : calibrate samples = some (wake, st)) :
    st = wake * (7/2) ∧ 10 ≤ medianFloor samples := by
  refine ⟨?_, le_max_right _ _⟩
  simp only [calibrate] at h
  split at h
  · exact absurd h (by simp)
  · split at h
    · exact absurd h (by simp)
    · rename_i w hw
      simp only [Option.some_inj, Prod.mk.injEq] at h
      obtain ⟨rfl, rfl⟩ := h
      rfl

/-- Witness for C2's amended theorem at the samples [1,1,1,1,1]. -/
theorem c2_threshold_is_margin_product_witness :
    (7:ℚ)/2 = 1 * (7/2) ∧ 10 ≤ medianFloor [1, 1, 1, 1, 1] :=
  c2_threshold_is_margin_product [1, 1, 1, 1, 1] 1 (7/2) (by
    norm_num [calibrate, percentile, sortQ, insertSorted, maxQ, filterRange]
    simp
    norm_num [maxQ])


/-! ## C3, C7, C8, C6 -/

/-- C3: once the consecutive-silence counter is about to exceed the
configured `MAX_SILENT_FRAMES` cap on a silent frame, the recording loop
declares end of utterance on that very frame and stops reading — the result
is the same for every semantic EOU probability `eouProb` and every list of
further frames `rest`, none of which is consumed. -/
theorem c3_silence_cap_forces_eou (threshold eouProb rms : ℚ)
    (maxSilent fuel silent : ℕ) (detected : Bool) (rest buf : List (Option ℚ))
    (hsilent : ¬ threshold * (7/2) < rms) (hcap : maxSilent < silent + 1) :
    recordLoop threshold eouProb maxSilent (fuel + 1) (some rms :: rest) detected silent buf
      = (if detected then RecOutcome.finalize buf.reverse else RecOutcome.discarded, 1) := by
  simp only [recordLoop, rmsSilenceStep, if_neg hsilent, if_pos hcap]

/-- Witness for C3 at a concrete silent frame over the cap. -/
theorem c3_witness :
    recordLoop 10 (99/100) 5 (7 + 1) [some 1, some 50] true 5 []
      = (RecOutcome.finalize [], 1) := by
  have h := c3_silence_cap_forces_eou 10 (99/100) 1 5 7 5 true [some 50] []
    (by norm_num) (by norm_num)
  simpa using h

/-- Helper for C7: from any below-cap state with no speech detected, a run
of only-silent frames long enough to exceed the cap ends in `discarded`. -/
theorem recordLoop_all_silent_discards (threshold eouProb : ℚ) (maxSilent : ℕ)
    (frames : List (Option ℚ)) :
    ∀ (fuel silent : ℕ) (buf : List (Option ℚ)),
    (∀ f ∈ frames, ∃ r, f = some r ∧ ¬ threshold * (7/2) < r) →
    silent ≤ maxSilent → maxSilent < silent + frames.length →
    frames.length ≤ fuel →
    (recordLoop threshold eouProb maxSilent fuel frames false silent buf).1
      = RecOutcome.discarded := by
  induction frames with
  | nil =>
    intro fuel silent buf _ hle hlt _
    simp at hlt
    omega
  | cons f rest ih =>
    intro fuel silent buf hall hle hlt hfuel
    obtain ⟨r, rfl, hr⟩ := hall f (List.mem_cons_self _ _)
    cases fuel with
    | zero => simp at hfuel
    | succ n =>
      by_cases hcap : maxSilent < silent + 1
      · simp [recordLoop, rmsSilenceStep, if_neg hr, if_pos hcap]
      · simp only [recordLoop, rmsSilenceStep, if_neg hr, if_neg hcap]
        exact ih n (silent + 1) (some r :: buf)
          (fun g hg => hall g (List.mem_cons_of_mem _ hg))
          (by omega) (by simp at hlt ⊢; omega) (by simp at hfuel ⊢; omega)

/-- C7: if no frame of the capture is ever classified as speech (every
frame's RMS is at or below the margin threshold) and there are more frames
than the silence cap, the capture is discarded: the transcriber is never
invoked and no error outcome is produced. -/
theorem c7_no_speech_discarded (threshold eouProb : ℚ) (maxSilent fuel : ℕ)
    (frames buf : List (Option ℚ))
    (hall : ∀ f ∈ frames, ∃ r, f = some r ∧ ¬ threshold * (7/2) < r)
    (hlen : maxSilent < frames.length) (hfuel : frames.length ≤ fuel) :
    (recordLoop threshold eouProb maxSilent fuel frames false 0 buf).1
      = RecOutcome.discarded :=
  recordLoop_all_silent_discards threshold eouProb maxSilent frames fuel 0 buf hall
    (Nat.zero_le _) (by simpa using hlen) hfuel

/-- Witness for C7 at two silent frames against a cap of 1. -/
theorem c7_witness :
    (recordLoop 10 0 1 100 [some 1, some 1] false 0 []).1 = RecOutcome.discarded :=
  c7_no_speech_discarded 10 0 1 100 [some 1, some 1] []
    (by intro f hf; fin_cases hf <;> exact ⟨1, rfl, by norm_num⟩)
    (by norm_num) (by norm_num)

/-- Helper for C8: the recording loop never reads more frames than its
fuel. -/
theorem recordLoop_reads_le_fuel (threshold eouProb : ℚ) (maxSilent : ℕ)
    (fuel : ℕ) :
    ∀ (frames : List (Option ℚ)) (detected : Bool) (silent : ℕ) (buf : List (Option ℚ)),
    (recordLoop threshold eouProb maxSilent fuel frames detected silent buf).2 ≤ fuel := by
  induction fuel with
  | zero =>
    intro frames detected silent buf
    cases frames <;> simp [recordLoop]
  | succ n ih =>
    intro frames detected silent buf
    cases frames with
    | nil => simp [recordLoop]
    | cons f rest =>
      simp only [recordLoop]
      rcases hstep : rmsSilenceStep threshold eouProb maxSilent f detected silent with ⟨b, det, sil⟩
      cases b
      · simp only [hstep]
        have h2 := ih rest det sil (f :: buf)
        omega
      · simp only [hstep]
        omega

/-- C8: with the hard cap `MAX_RECORDING_FRAMES = 100`, a single recording
reads at most 100 frames before moving to finalisation, for every frame
sequence — including one the VAD never classifies as silence — so a single
recording always terminates. -/
theorem c8_recording_reads_at_most_100 (threshold eouProb : ℚ)
    (maxSilent silent : ℕ) (frames buf : List (Option ℚ)) (detected : Bool) :
    (recordLoop threshold eouProb maxSilent 100 frames detected silent buf).2 ≤ 100 :=
  recordLoop_reads_le_fuel threshold eouProb maxSilent 100 frames detected silent buf

/-- C6, counterexample: with the shutdown flag set during the whole capture
(`fun _ => true`), the source's recording loop (which never reads the flag)
still runs to completion and finalises the buffered utterance — the path
that invokes the utterance callback — whereas the loop described by the
spec (polling the flag at each frame read, `recordLoopSpecPolling`) aborts
at the first frame without finalising. -/
theorem c6_shutdown_midrecording_counterexample :
    (recordLoop 1 (1/2) 1 10 [some 100, some 1, some 1] false 0 []).1
        = RecOutcome.finalize [some 100, some 1]
    ∧ (recordLoopSpecPolling (fun _ => true) 1 (1/2) 1 0 10 [some 100, some 1, some 1] false 0 []).1
        = RecOutcomeS.aborted := by
  constructor
  · norm_num [recordLoop, rmsSilenceStep]
  · simp [recordLoopSpecPolling]

/-- C6, amended: the shutdown flag is polled once per outer
`_stt_processing_loop` iteration, not at each frame read; once the flag is
observed set, the loop performs no further wake-word/transcription cycles.
(An in-progress capture is not interrupted and still reaches the utterance
callback, as the counterexample shows.) -/
theorem c6_shutdown_polled_per_outer_iteration (shutdown wake : ℕ → Bool)
    (i fuel : ℕ) (h : shutdown i = true) :
    sttLoop shutdown wake (fuel + 1) i = [] := by
  simp [sttLoop, h]

/-- Witness for C6's amended theorem with the flag set from the start. -/
theorem c6_shutdown_polled_per_outer_iteration_witness :
    sttLoop (fun _ => true) (fun _ => true) 4 0 = [] :=
  c6_shutdown_polled_per_outer_iteration (fun _ => true) (fun _ => true) 0 3 rfl

end TARS

